import Mathlib

/-!
# Verification of `process::Shared<T>` (libprocess `shared.hpp`)

A shallow embedding of `src/3rdparty/libprocess/include/process/shared.hpp`.

`Shared<T>` is a const-access shared pointer: `boost::shared_ptr<Data> data`
where `Data` holds the raw value `t`, a `volatile bool upgraded` flag and a
`Promise<Owned<T>> promise`.  `upgrade()` performs an atomic
compare-and-swap on `upgraded`; the `Data` destructor either deletes `t`
(not upgraded) or fulfills the promise with `Owned<T>(t)` (upgraded).

The embedding makes the shared-pointer machinery explicit: a global `State`
holds the live control blocks (`Data` records, keyed by an allocation id
standing for the block's address), the handle slots (each an optional block
id, standing for one `Shared<T>` instance's `data` member), and event logs
recording value deallocations (`delete t`) and promise fulfillments
(`promise.set(Owned<T>(t))`).  Raw `T*` values are modelled by `Nat`
(`Option Nat` at the API, `none` standing for `NULL`).  Each public member
function of `Shared<T>` becomes a function on `State`, and arbitrary client
programs become lists of operations folded over the state.
-/

namespace ProcessShared

/-- `Shared<T>::Data`: the control block.  `t` is the owned raw value,
`upgraded` the one-shot claim flag (initialized `false` by the constructor).
`refCount` models the `boost::shared_ptr` use count of the block.  The
`Promise` member carries no state while the block is alive (it is fulfilled
only in the destructor); fulfillments are recorded in the global log. -/
structure Data where
  t : Nat
  upgraded : Bool
  refCount : Nat
deriving DecidableEq, Repr

/-- The value returned by `Shared<T>::upgrade()`, a `Future<Owned<T>>`:
either an already-resolved future holding `Owned<T>(NULL)` (empty handle
path), an already-failed future carrying an error message, or the pending
future side of control block `bid`'s promise. -/
inductive UpgradeResult where
  | readyEmpty : UpgradeResult
  | failed : String → UpgradeResult
  | pending : Nat → UpgradeResult
deriving DecidableEq, Repr

/-- Global state: live control blocks as an association list keyed by
allocation id, the allocation counter (fresh block ids are never reused,
as fresh heap addresses of live objects never alias), the handle slots,
and the event logs: `freed` records `delete t` events, `resolved` records
`promise.set(Owned<T>(t))` events (both as (block id, value) pairs), and
`log` records the results returned by `upgrade()` calls. -/
structure State where
  blocks : List (Nat × Data)
  nextBlock : Nat
  handles : List (Option Nat)
  freed : List (Nat × Nat)
  resolved : List (Nat × Nat)
  log : List UpgradeResult
deriving DecidableEq, Repr

/-- The empty initial state: no blocks, no handles, no events. -/
def initState : State := ⟨[], 0, [], [], [], []⟩

/-- Look up a control block by id (first matching entry). -/
def lookupB (bid : Nat) : List (Nat × Data) → Option Data
  | [] => none
  | p :: ps => if p.1 = bid then some p.2 else lookupB bid ps

/-- Replace the control block stored under `bid`. -/
def updateB (bid : Nat) (blk : Data) : List (Nat × Data) → List (Nat × Data)
  | [] => []
  | p :: ps => if p.1 = bid then (bid, blk) :: updateB bid blk ps else p :: updateB bid blk ps

/-- Remove the control block stored under `bid` (block destruction). -/
def removeB (bid : Nat) : List (Nat × Data) → List (Nat × Data)
  | [] => []
  | p :: ps => if p.1 = bid then removeB bid ps else p :: removeB bid ps

/-- Read handle slot `h` (out of range reads as an empty handle). -/
def hGet : List (Option Nat) → Nat → Option Nat
  | [], _ => none
  | x :: _, 0 => x
  | _ :: xs, n + 1 => hGet xs n

/-- Write handle slot `h` (out of range is a no-op). -/
def hSet : List (Option Nat) → Nat → Option Nat → List (Option Nat)
  | [], _, _ => []
  | _ :: xs, 0, v => v :: xs
  | x :: xs, n + 1, v => x :: hSet xs n v

/-- Dropping one `boost::shared_ptr<Data>` reference to block `bid`.  If the
use count drops to zero the block is destroyed, running `Shared<T>::Data::~Data`:
`if (upgraded) { promise.set(Owned<T>(t)); } else { delete t; }`. -/
def releaseRef (bid : Nat) (s : State) : State :=
  match lookupB bid s.blocks with
  | none => s
  | some blk =>
    if blk.refCount ≤ 1 then
      if blk.upgraded then
        { s with blocks := removeB bid s.blocks,
                 resolved := (bid, blk.t) :: s.resolved }
      else
        { s with blocks := removeB bid s.blocks,
                 freed := (bid, blk.t) :: s.freed }
    else
      { s with blocks := updateB bid { blk with refCount := blk.refCount - 1 } s.blocks }

/-- `Shared<T>::Shared(T* t)`: `if (t != NULL) { data.reset(new Data(t)); }`.
A `none` argument models `t == NULL` and yields an empty handle with no
control block allocated; otherwise a fresh block owning `t` is allocated
(`Data::Data` sets `upgraded` to `false`) with use count 1.  The new handle
occupies a fresh slot (index `s.handles.length`). -/
def createH (v : Option Nat) (s : State) : State :=
  match v with
  | none => { s with handles := s.handles ++ [none] }
  | some t =>
    { s with blocks := (s.nextBlock, ⟨t, false, 1⟩) :: s.blocks,
             nextBlock := s.nextBlock + 1,
             handles := s.handles ++ [some s.nextBlock] }

/-- Copy construction of a `Shared<T>` from the handle in slot `h`: the new
handle shares the same control block and the use count is incremented. -/
def copyH (h : Nat) (s : State) : State :=
  match hGet s.handles h with
  | none => { s with handles := s.handles ++ [none] }
  | some bid =>
    { s with handles := s.handles ++ [some bid],
             blocks := updateB bid
               (match lookupB bid s.blocks with
                | some blk => { blk with refCount := blk.refCount + 1 }
                | none => ⟨0, false, 0⟩) s.blocks }

/-- `Shared<T>::reset()`: `data.reset();` — the handle drops its reference
(possibly destroying the block) and becomes empty. -/
def resetH (h : Nat) (s : State) : State :=
  match hGet s.handles h with
  | none => s
  | some bid => releaseRef bid { s with handles := hSet s.handles h none }

/-- `Shared<T>::reset(T* t)`: `if (t == NULL) { data.reset(); } else
{ data.reset(new Data(t)); }` — release the old reference, then (for a
non-null argument) install a fresh control block owning `t`. -/
def resetWithH (h : Nat) (v : Option Nat) (s : State) : State :=
  match v with
  | none => resetH h s
  | some t =>
    let s1 := resetH h s
    { s1 with blocks := (s1.nextBlock, ⟨t, false, 1⟩) :: s1.blocks,
              nextBlock := s1.nextBlock + 1,
              handles := hSet s1.handles h (some s1.nextBlock) }

/-- `Shared<T>::swap`: `data.swap(that.data);` — the two slots exchange
their block references; no use count changes. -/
def swapH (h1 h2 : Nat) (s : State) : State :=
  let a := hGet s.handles h1
  let b := hGet s.handles h2
  { s with handles := hSet (hSet s.handles h1 b) h2 a }

/-- `Shared<T>::operator==`: `data == that.data` — identity comparison of
the stored `shared_ptr` (two distinct live blocks have distinct addresses,
modelled by distinct ids; two null pointers compare equal). -/
def eqH (h1 h2 : Nat) (s : State) : Bool :=
  decide (hGet s.handles h1 = hGet s.handles h2)

/-- `Shared<T>::get()`: `NULL` for an empty handle, else `data->t`. -/
def getH (h : Nat) (s : State) : Option Nat :=
  match hGet s.handles h with
  | none => none
  | some bid =>
    match lookupB bid s.blocks with
    | none => none
    | some blk => some blk.t

/-- Result of `operator*` / `operator->`: `CHECK_NOTNULL(get())` either
aborts the program (glog fatal check, `fatal`) or yields the value. -/
inductive Access where
  | fatal : Access
  | ok : Nat → Access
deriving DecidableEq, Repr

/-- `Shared<T>::operator*`: `*CHECK_NOTNULL(get())` — fatal on an empty
handle, otherwise the (const) wrapped value. -/
def derefStar (h : Nat) (s : State) : Access :=
  match getH h s with
  | none => Access.fatal
  | some t => Access.ok t

/-- `Shared<T>::operator->`: `CHECK_NOTNULL(get())` — same abort-or-value
behavior as `operator*`. -/
def derefArrow (h : Nat) (s : State) : Access :=
  match getH h s with
  | none => Access.fatal
  | some t => Access.ok t

/-- `Shared<T>::unique()`: `data.unique()` — use count exactly 1; `false`
for an empty handle. -/
def uniqueH (h : Nat) (s : State) : Bool :=
  match hGet s.handles h with
  | none => false
  | some bid =>
    match lookupB bid s.blocks with
    | none => false
    | some blk => decide (blk.refCount = 1)

/-- `Shared<T>::upgrade()` on the handle in slot `h`:
`if (data.get() == NULL) return Owned<T>(NULL);` then
`if (!__sync_bool_compare_and_swap(&data->upgraded, false, true)) return
Future::failed(...);` then `future = data->promise.future(); data.reset();
return future;`.  Returns the successor state and the returned future.
(The inner `lookupB _ = none` case — a handle slot naming a destroyed
block — cannot arise: a live `shared_ptr` keeps its block alive; it is
mapped to the empty-handle path to keep the function total.) -/
def upgradeH (h : Nat) (s : State) : State × UpgradeResult :=
  match hGet s.handles h with
  | none => (s, UpgradeResult.readyEmpty)
  | some bid =>
    match lookupB bid s.blocks with
    | none => (s, UpgradeResult.readyEmpty)
    | some blk =>
      if blk.upgraded then
        (s, UpgradeResult.failed "An upgrade is already being performed")
      else
        let s1 := { s with blocks := updateB bid { blk with upgraded := true } s.blocks }
        let s2 := { s1 with handles := hSet s1.handles h none }
        (releaseRef bid s2, UpgradeResult.pending bid)

/-- One client operation on the shared-pointer state: constructing a handle
from a raw value, copying a handle, `reset()`, `reset(T*)`, `swap`, or
`upgrade()`. -/
inductive Op where
  | create : Option Nat → Op
  | copy : Nat → Op
  | reset : Nat → Op
  | resetWith : Nat → Option Nat → Op
  | swap : Nat → Nat → Op
  | upgrade : Nat → Op
deriving DecidableEq, Repr

/-- Execute one operation; `upgrade` results are recorded in the log. -/
def step (s : State) (op : Op) : State :=
  match op with
  | Op.create v => createH v s
  | Op.copy h => copyH h s
  | Op.reset h => resetH h s
  | Op.resetWith h v => resetWithH h v s
  | Op.swap h1 h2 => swapH h1 h2 s
  | Op.upgrade h =>
    let p := upgradeH h s
    { p.1 with log := p.2 :: p.1.log }

/-- Run a client program from the empty initial state. -/
def run (ops : List Op) : State := ops.foldl step initState

/-- Number of successful `upgrade()` calls recorded for block `bid`: the
log entries that are the pending future of block `bid`'s promise. -/
def successCount (bid : Nat) (l : List UpgradeResult) : Nat :=
  l.countP (fun r => decide (r = UpgradeResult.pending bid))

/-- Number of logged events ( `delete t` or `promise.set` ) for block `bid`. -/
def eventCount (bid : Nat) (l : List (Nat × Nat)) : Nat :=
  l.countP (fun p => decide (p.1 = bid))

/-! ## Basic lemmas about the block store and the handle slots -/

theorem lookupB_updateB_self (bid : Nat) (blk blk0 : Data) (l : List (Nat × Data))
    (h : lookupB bid l = some blk0) :
    lookupB bid (updateB bid blk l) = some blk := by
  induction l with
  | nil => simp [lookupB] at h
  | cons p ps ih =>
    obtain ⟨k, d⟩ := p
    by_cases hp : k = bid
    · subst hp
      simp [updateB, lookupB]
    · simp only [lookupB, hp, if_false] at h
      simp [updateB, lookupB, hp]
      exact ih h

theorem lookupB_updateB_none (bid : Nat) (blk : Data) (l : List (Nat × Data))
    (h : lookupB bid l = none) :
    updateB bid blk l = l := by
  induction l with
  | nil => rfl
  | cons p ps ih =>
    obtain ⟨k, d⟩ := p
    by_cases hp : k = bid
    · simp [lookupB, hp] at h
    · simp only [lookupB, hp, if_false] at h
      simp [updateB, hp, ih h]

theorem lookupB_updateB_ne (b bid : Nat) (blk : Data) (l : List (Nat × Data))
    (hne : b ≠ bid) :
    lookupB b (updateB bid blk l) = lookupB b l := by
  induction l with
  | nil => rfl
  | cons p ps ih =>
    obtain ⟨k, d⟩ := p
    by_cases hp : k = bid
    · subst hp
      simp [updateB, lookupB, Ne.symm hne, ih]
    · simp [updateB, lookupB, hp, ih]

theorem lookupB_removeB_self (bid : Nat) (l : List (Nat × Data)) :
    lookupB bid (removeB bid l) = none := by
  induction l with
  | nil => rfl
  | cons p ps ih =>
    obtain ⟨k, d⟩ := p
    by_cases hp : k = bid
    · simpa [removeB, hp] using ih
    · simpa [removeB, lookupB, hp] using ih

theorem lookupB_removeB_ne (b bid : Nat) (l : List (Nat × Data)) (hne : b ≠ bid) :
    lookupB b (removeB bid l) = lookupB b l := by
  induction l with
  | nil => rfl
  | cons p ps ih =>
    obtain ⟨k, d⟩ := p
    by_cases hp : k = bid
    · subst hp
      simp [removeB, lookupB, Ne.symm hne, ih]
    · simp [removeB, lookupB, hp, ih]

theorem hGet_ge (l : List (Option Nat)) (i : Nat) (h : l.length ≤ i) :
    hGet l i = none := by
  induction l generalizing i with
  | nil => rfl
  | cons x xs ih =>
    cases i with
    | zero => simp at h
    | succ n => exact ih n (by simpa using h)

theorem hGet_lt_length (l : List (Option Nat)) (i : Nat) (x : Nat)
    (h : hGet l i = some x) : i < l.length := by
  by_contra hge
  rw [hGet_ge l i (by omega)] at h
  exact Option.noConfusion h

theorem length_hSet (l : List (Option Nat)) (i : Nat) (v : Option Nat) :
    (hSet l i v).length = l.length := by
  induction l generalizing i with
  | nil => rfl
  | cons x xs ih =>
    cases i with
    | zero => rfl
    | succ n => simp [hSet, ih]

theorem hGet_hSet_self (l : List (Option Nat)) (i : Nat) (v : Option Nat) :
    hGet (hSet l i v) i = if i < l.length then v else none := by
  induction l generalizing i with
  | nil => simp [hSet, hGet]
  | cons x xs ih =>
    cases i with
    | zero => simp [hSet, hGet]
    | succ n => simpa [hSet, hGet, Nat.succ_lt_succ_iff] using ih n

theorem hGet_hSet_ne (l : List (Option Nat)) (i j : Nat) (v : Option Nat)
    (hne : j ≠ i) : hGet (hSet l i v) j = hGet l j := by
  induction l generalizing i j with
  | nil => rfl
  | cons x xs ih =>
    cases i with
    | zero =>
      cases j with
      | zero => exact absurd rfl hne
      | succ m => rfl
    | succ n =>
      cases j with
      | zero => rfl
      | succ m => exact ih n m (fun hh => hne (by omega))

theorem hGet_append (l : List (Option Nat)) (x : Option Nat) (i : Nat) :
    hGet (l ++ [x]) i =
      if i < l.length then hGet l i else if i = l.length then x else none := by
  induction l generalizing i with
  | nil =>
    cases i with
    | zero => rfl
    | succ n => cases n <;> rfl
  | cons y ys ih =>
    cases i with
    | zero => simp [hGet]
    | succ n =>
      simpa [hGet, Nat.succ_lt_succ_iff, Nat.succ_inj] using ih n

theorem lookupB_cons (b k : Nat) (d : Data) (l : List (Nat × Data)) :
    lookupB b ((k, d) :: l) = if k = b then some d else lookupB b l := rfl

theorem successCount_cons (bid : Nat) (r : UpgradeResult) (l : List UpgradeResult) :
    successCount bid (r :: l)
      = successCount bid l + (if r = UpgradeResult.pending bid then 1 else 0) := by
  simp [successCount, List.countP_cons]

theorem eventCount_cons (bid : Nat) (e : Nat × Nat) (l : List (Nat × Nat)) :
    eventCount bid (e :: l) = eventCount bid l + (if e.1 = bid then 1 else 0) := by
  simp [eventCount, List.countP_cons]

/-! ## The reachable-state invariant -/

/-- Block `bid`'s claim flag has been won: the id has been allocated, and
if the block is still alive its `upgraded` flag reads `true`.  A destroyed
block's id is never reused, so once won the flag is never observed `false`
again. -/
def claimedB (bid : Nat) (s : State) : Prop :=
  bid < s.nextBlock ∧ ∀ blk, lookupB bid s.blocks = some blk → blk.upgraded = true

/-- Block `bid` has been allocated and is no longer alive. -/
def deadB (bid : Nat) (s : State) : Prop :=
  bid < s.nextBlock ∧ lookupB bid s.blocks = none

/-- The invariant of reachable states: (1) each control block wins at most
one `upgrade()`; (2) a block that won an upgrade has its claim flag set for
as long as it lives; (3) each block is finalized at most once — one
`delete t` or one `promise.set`, never both; (4) a finalized block is dead;
(5) live block ids are below the allocation counter. -/
def Inv (s : State) : Prop :=
  (∀ bid, successCount bid s.log ≤ 1) ∧
  (∀ bid, 1 ≤ successCount bid s.log → claimedB bid s) ∧
  (∀ bid, eventCount bid s.freed + eventCount bid s.resolved ≤ 1) ∧
  (∀ bid, 1 ≤ eventCount bid s.freed + eventCount bid s.resolved → deadB bid s) ∧
  (∀ bid blk, lookupB bid s.blocks = some blk → bid < s.nextBlock)

theorem Inv_handles (s : State) (hs2 : List (Option Nat)) (hs : Inv s) :
    Inv { s with handles := hs2 } := by
  obtain ⟨bs, nb, hls, fr, rs, lg⟩ := s
  exact hs

theorem Inv_alloc (s : State) (t : Nat) (hs2 : List (Option Nat)) (hs : Inv s) :
    Inv { s with blocks := (s.nextBlock, (⟨t, false, 1⟩ : Data)) :: s.blocks,
                 nextBlock := s.nextBlock + 1, handles := hs2 } := by
  obtain ⟨bs, nb, hls, fr, rs, lg⟩ := s
  obtain ⟨I1, I2, I3, I4, I5⟩ := hs
  dsimp only [Inv, claimedB, deadB] at *
  refine ⟨I1, ?_, I3, ?_, ?_⟩
  · intro b hb
    obtain ⟨hb1, hb2⟩ := I2 b hb
    refine ⟨by omega, ?_⟩
    intro blk' hblk'
    rw [lookupB_cons, if_neg (by omega)] at hblk'
    exact hb2 blk' hblk'
  · intro b hb
    obtain ⟨hb1, hb2⟩ := I4 b hb
    refine ⟨by omega, ?_⟩
    rw [lookupB_cons, if_neg (by omega)]
    exact hb2
  · intro b blk' hblk'
    rw [lookupB_cons] at hblk'
    by_cases hnb : nb = b
    · omega
    · rw [if_neg hnb] at hblk'
      have := I5 b blk' hblk'
      omega

theorem Inv_updateB (s : State) (bid : Nat) (blk blk2 : Data)
    (hl : lookupB bid s.blocks = some blk)
    (hup : blk.upgraded = true → blk2.upgraded = true)
    (hs : Inv s) :
    Inv { s with blocks := updateB bid blk2 s.blocks } := by
  obtain ⟨bs, nb, hls, fr, rs, lg⟩ := s
  obtain ⟨I1, I2, I3, I4, I5⟩ := hs
  dsimp only [Inv, claimedB, deadB] at *
  refine ⟨I1, ?_, I3, ?_, ?_⟩
  · intro b hb
    obtain ⟨hb1, hb2⟩ := I2 b hb
    refine ⟨hb1, ?_⟩
    intro blk' hblk'
    by_cases hbb : b = bid
    · subst hbb
      rw [lookupB_updateB_self b blk2 blk bs hl] at hblk'
      injection hblk' with hh
      exact hh ▸ hup (hb2 blk hl)
    · rw [lookupB_updateB_ne b bid blk2 bs hbb] at hblk'
      exact hb2 blk' hblk'
  · intro b hb
    obtain ⟨hb1, hb2⟩ := I4 b hb
    refine ⟨hb1, ?_⟩
    by_cases hbb : b = bid
    · subst hbb
      rw [hl] at hb2
      exact Option.noConfusion hb2
    · rw [lookupB_updateB_ne b bid blk2 bs hbb]
      exact hb2
  · intro b blk' hblk'
    by_cases hbb : b = bid
    · subst hbb
      exact I5 b blk hl
    · rw [lookupB_updateB_ne b bid blk2 bs hbb] at hblk'
      exact I5 b blk' hblk'

theorem Inv_destroy_resolved (s : State) (bid : Nat) (blk : Data)
    (hl : lookupB bid s.blocks = some blk) (hs : Inv s) :
    Inv { s with blocks := removeB bid s.blocks,
                 resolved := (bid, blk.t) :: s.resolved } := by
  obtain ⟨bs, nb, hls, fr, rs, lg⟩ := s
  obtain ⟨I1, I2, I3, I4, I5⟩ := hs
  dsimp only [Inv, claimedB, deadB] at *
  refine ⟨I1, ?_, ?_, ?_, ?_⟩
  · intro b hb
    obtain ⟨hb1, hb2⟩ := I2 b hb
    refine ⟨hb1, ?_⟩
    intro blk' hblk'
    by_cases hbb : b = bid
    · subst hbb
      rw [lookupB_removeB_self b bs] at hblk'
      exact Option.noConfusion hblk'
    · rw [lookupB_removeB_ne b bid bs hbb] at hblk'
      exact hb2 blk' hblk'
  · intro b
    rw [eventCount_cons]
    by_cases hbb : b = bid
    · subst hbb
      have h0 : eventCount b fr + eventCount b rs = 0 := by
        by_contra hne
        obtain ⟨_, hdead⟩ := I4 b (Nat.one_le_iff_ne_zero.mpr hne)
        rw [hl] at hdead
        exact Option.noConfusion hdead
      simp
      omega
    · rw [if_neg (fun hh => hbb hh.symm)]
      have := I3 b
      omega
  · intro b hb
    rw [eventCount_cons] at hb
    by_cases hbb : b = bid
    · subst hbb
      exact ⟨I5 b blk hl, lookupB_removeB_self b bs⟩
    · rw [if_neg (fun hh => hbb hh.symm)] at hb
      obtain ⟨hb1, hb2⟩ := I4 b (by omega)
      exact ⟨hb1, by rw [lookupB_removeB_ne b bid bs hbb]; exact hb2⟩
  · intro b blk' hblk'
    by_cases hbb : b = bid
    · subst hbb
      rw [lookupB_removeB_self b bs] at hblk'
      exact Option.noConfusion hblk'
    · rw [lookupB_removeB_ne b bid bs hbb] at hblk'
      exact I5 b blk' hblk'

theorem Inv_destroy_freed (s : State) (bid : Nat) (blk : Data)
    (hl : lookupB bid s.blocks = some blk) (hs : Inv s) :
    Inv { s with blocks := removeB bid s.blocks,
                 freed := (bid, blk.t) :: s.freed } := by
  obtain ⟨bs, nb, hls, fr, rs, lg⟩ := s
  obtain ⟨I1, I2, I3, I4, I5⟩ := hs
  dsimp only [Inv, claimedB, deadB] at *
  refine ⟨I1, ?_, ?_, ?_, ?_⟩
  · intro b hb
    obtain ⟨hb1, hb2⟩ := I2 b hb
    refine ⟨hb1, ?_⟩
    intro blk' hblk'
    by_cases hbb : b = bid
    · subst hbb
      rw [lookupB_removeB_self b bs] at hblk'
      exact Option.noConfusion hblk'
    · rw [lookupB_removeB_ne b bid bs hbb] at hblk'
      exact hb2 blk' hblk'
  · intro b
    rw [eventCount_cons]
    by_cases hbb : b = bid
    · subst hbb
      have h0 : eventCount b fr + eventCount b rs = 0 := by
        by_contra hne
        obtain ⟨_, hdead⟩ := I4 b (Nat.one_le_iff_ne_zero.mpr hne)
        rw [hl] at hdead
        exact Option.noConfusion hdead
      simp
      omega
    · rw [if_neg (fun hh => hbb hh.symm)]
      have := I3 b
      omega
  · intro b hb
    rw [eventCount_cons] at hb
    by_cases hbb : b = bid
    · subst hbb
      exact ⟨I5 b blk hl, lookupB_removeB_self b bs⟩
    · rw [if_neg (fun hh => hbb hh.symm)] at hb
      obtain ⟨hb1, hb2⟩ := I4 b (by omega)
      exact ⟨hb1, by rw [lookupB_removeB_ne b bid bs hbb]; exact hb2⟩
  · intro b blk' hblk'
    by_cases hbb : b = bid
    · subst hbb
      rw [lookupB_removeB_self b bs] at hblk'
      exact Option.noConfusion hblk'
    · rw [lookupB_removeB_ne b bid bs hbb] at hblk'
      exact I5 b blk' hblk'

theorem Inv_releaseRef (bid : Nat) (s : State) (hs : Inv s) : Inv (releaseRef bid s) := by
  unfold releaseRef
  rcases hl : lookupB bid s.blocks with _ | blk
  · exact hs
  · by_cases hrc : blk.refCount ≤ 1
    · by_cases hu : blk.upgraded = true
      · simp only [if_pos hrc, if_pos hu]
        exact Inv_destroy_resolved s bid blk hl hs
      · simp only [if_pos hrc, if_neg hu]
        exact Inv_destroy_freed s bid blk hl hs
    · simp only [if_neg hrc]
      exact Inv_updateB s bid blk _ hl (fun hh => hh) hs

theorem releaseRef_nextBlock (bid : Nat) (s : State) :
    (releaseRef bid s).nextBlock = s.nextBlock := by
  unfold releaseRef
  split
  · rfl
  · split
    · split
      · rfl
      · rfl
    · rfl

theorem releaseRef_handles (bid : Nat) (s : State) :
    (releaseRef bid s).handles = s.handles := by
  unfold releaseRef
  split
  · rfl
  · split
    · split
      · rfl
      · rfl
    · rfl

theorem releaseRef_log (bid : Nat) (s : State) :
    (releaseRef bid s).log = s.log := by
  unfold releaseRef
  split
  · rfl
  · split
    · split
      · rfl
      · rfl
    · rfl

theorem claimedB_releaseRef (b bid : Nat) (s : State) (hcl : claimedB b s) :
    claimedB b (releaseRef bid s) := by
  obtain ⟨h1, h2⟩ := hcl
  refine ⟨by rw [releaseRef_nextBlock]; exact h1, ?_⟩
  intro blk' hblk'
  unfold releaseRef at hblk'
  rcases hl : lookupB bid s.blocks with _ | blk
  · rw [hl] at hblk'
    exact h2 blk' hblk'
  · rw [hl] at hblk'
    by_cases hrc : blk.refCount ≤ 1
    · by_cases hu : blk.upgraded = true
      · simp only [if_pos hrc, if_pos hu] at hblk'
        by_cases hbb : b = bid
        · subst hbb
          rw [lookupB_removeB_self b s.blocks] at hblk'
          exact Option.noConfusion hblk'
        · rw [lookupB_removeB_ne b bid s.blocks hbb] at hblk'
          exact h2 blk' hblk'
      · simp only [if_pos hrc, if_neg hu] at hblk'
        by_cases hbb : b = bid
        · subst hbb
          rw [lookupB_removeB_self b s.blocks] at hblk'
          exact Option.noConfusion hblk'
        · rw [lookupB_removeB_ne b bid s.blocks hbb] at hblk'
          exact h2 blk' hblk'
    · simp only [if_neg hrc] at hblk'
      by_cases hbb : b = bid
      · subst hbb
        rw [lookupB_updateB_self b _ blk s.blocks hl] at hblk'
        injection hblk' with hh
        rw [← hh]
        exact h2 blk hl
      · rw [lookupB_updateB_ne b bid _ s.blocks hbb] at hblk'
        exact h2 blk' hblk'

theorem Inv_log_nonpending (s : State) (r : UpgradeResult)
    (hr : ∀ bid, r ≠ UpgradeResult.pending bid) (hs : Inv s) :
    Inv { s with log := r :: s.log } := by
  obtain ⟨bs, nb, hls, fr, rs, lg⟩ := s
  obtain ⟨I1, I2, I3, I4, I5⟩ := hs
  dsimp only [Inv, claimedB, deadB] at *
  refine ⟨?_, ?_, I3, I4, I5⟩
  · intro b
    rw [successCount_cons, if_neg (hr b)]
    have := I1 b
    omega
  · intro b hb
    rw [successCount_cons, if_neg (hr b)] at hb
    exact I2 b (by omega)

theorem Inv_log_pending (s : State) (bid : Nat) (hsc : successCount bid s.log = 0)
    (hcl : claimedB bid s) (hs : Inv s) :
    Inv { s with log := UpgradeResult.pending bid :: s.log } := by
  obtain ⟨bs, nb, hls, fr, rs, lg⟩ := s
  obtain ⟨I1, I2, I3, I4, I5⟩ := hs
  dsimp only [Inv, claimedB, deadB] at *
  refine ⟨?_, ?_, I3, I4, I5⟩
  · intro b
    rw [successCount_cons]
    by_cases hbb : bid = b
    · subst hbb
      simp
      omega
    · simp only [UpgradeResult.pending.injEq]
      rw [if_neg hbb]
      have := I1 b
      omega
  · intro b hb
    rw [successCount_cons] at hb
    by_cases hbb : bid = b
    · subst hbb
      exact hcl
    · simp only [UpgradeResult.pending.injEq] at hb
      rw [if_neg hbb] at hb
      exact I2 b (by omega)

theorem Inv_resetH (h : Nat) (s : State) (hs : Inv s) : Inv (resetH h s) := by
  unfold resetH
  rcases hg : hGet s.handles h with _ | bid
  · exact hs
  · exact Inv_releaseRef bid _ (Inv_handles s _ hs)

/-! ## Characterizations of `upgrade()` -/

theorem upgradeH_of_empty (h : Nat) (s : State) (hg : hGet s.handles h = none) :
    upgradeH h s = (s, UpgradeResult.readyEmpty) := by
  simp [upgradeH, hg]

theorem upgradeH_of_dead (h bid : Nat) (s : State)
    (hg : hGet s.handles h = some bid)
    (hl : lookupB bid s.blocks = none) :
    upgradeH h s = (s, UpgradeResult.readyEmpty) := by
  simp [upgradeH, hg, hl]

theorem upgradeH_of_claimed (h bid : Nat) (blk : Data) (s : State)
    (hg : hGet s.handles h = some bid)
    (hl : lookupB bid s.blocks = some blk)
    (hu : blk.upgraded = true) :
    upgradeH h s = (s, UpgradeResult.failed "An upgrade is already being performed") := by
  simp [upgradeH, hg, hl, hu]

theorem upgradeH_of_unclaimed (h bid : Nat) (blk : Data) (s : State)
    (hg : hGet s.handles h = some bid)
    (hl : lookupB bid s.blocks = some blk)
    (hu : blk.upgraded = false) :
    upgradeH h s =
      (releaseRef bid
        { s with blocks := updateB bid { blk with upgraded := true } s.blocks,
                 handles := hSet s.handles h none },
       UpgradeResult.pending bid) := by
  simp [upgradeH, hg, hl, hu]

theorem Inv_step (s : State) (op : Op) (hs : Inv s) : Inv (step s op) := by
  cases op with
  | create v =>
    cases v with
    | none => exact Inv_handles s _ hs
    | some t => exact Inv_alloc s t _ hs
  | copy h =>
    show Inv (copyH h s)
    unfold copyH
    rcases hg : hGet s.handles h with _ | bid
    · exact Inv_handles s _ hs
    · rcases hl : lookupB bid s.blocks with _ | blk
      · simp only [hl]
        rw [lookupB_updateB_none bid _ s.blocks hl]
        exact Inv_handles s _ hs
      · simp only [hl]
        exact Inv_handles _ _
          (Inv_updateB s bid blk { blk with refCount := blk.refCount + 1 } hl
            (fun hh => hh) hs)
  | reset h => exact Inv_resetH h s hs
  | resetWith h v =>
    show Inv (resetWithH h v s)
    cases v with
    | none => exact Inv_resetH h s hs
    | some t => exact Inv_alloc (resetH h s) t _ (Inv_resetH h s hs)
  | swap h1 h2 => exact Inv_handles s _ hs
  | upgrade h =>
    show Inv { (upgradeH h s).1 with log := (upgradeH h s).2 :: (upgradeH h s).1.log }
    obtain ⟨I1, I2, I3, I4, I5⟩ := hs
    rcases hg : hGet s.handles h with _ | bid
    · rw [upgradeH_of_empty h s hg]
      exact Inv_log_nonpending s _ (fun b hh => UpgradeResult.noConfusion hh)
        ⟨I1, I2, I3, I4, I5⟩
    · rcases hl : lookupB bid s.blocks with _ | blk
      · rw [upgradeH_of_dead h bid s hg hl]
        exact Inv_log_nonpending s _ (fun b hh => UpgradeResult.noConfusion hh)
          ⟨I1, I2, I3, I4, I5⟩
      · by_cases hu : blk.upgraded = true
        · rw [upgradeH_of_claimed h bid blk s hg hl hu]
          exact Inv_log_nonpending s _ (fun b hh => UpgradeResult.noConfusion hh)
            ⟨I1, I2, I3, I4, I5⟩
        · have hu' : blk.upgraded = false := by
            cases hub : blk.upgraded
            · rfl
            · exact absurd hub hu
          rw [upgradeH_of_unclaimed h bid blk s hg hl hu']
          have hInv2 : Inv { s with blocks := updateB bid { blk with upgraded := true } s.blocks,
                                    handles := hSet s.handles h none } :=
            Inv_handles _ _ (Inv_updateB s bid blk { blk with upgraded := true } hl
              (fun _ => rfl) ⟨I1, I2, I3, I4, I5⟩)
          have hInv3 := Inv_releaseRef bid _ hInv2
          have hcl2 : claimedB bid { s with blocks := updateB bid { blk with upgraded := true } s.blocks,
                                            handles := hSet s.handles h none } := by
            refine ⟨I5 bid blk hl, ?_⟩
            intro blk' hblk'
            have heq : lookupB bid (updateB bid { blk with upgraded := true } s.blocks)
                = some { blk with upgraded := true } :=
              lookupB_updateB_self bid _ blk s.blocks hl
            rw [heq] at hblk'
            injection hblk' with hh
            rw [← hh]
          have hcl3 := claimedB_releaseRef bid bid _ hcl2
          have hsc0 : successCount bid s.log = 0 := by
            by_contra hne
            have hge : 1 ≤ successCount bid s.log := Nat.one_le_iff_ne_zero.mpr hne
            have := (I2 bid hge).2 blk hl
            rw [hu'] at this
            exact Bool.noConfusion this
          refine Inv_log_pending _ bid ?_ hcl3 hInv3
          rw [releaseRef_log]
          exact hsc0

theorem Inv_initState : Inv initState := by
  refine ⟨?_, ?_, ?_, ?_, ?_⟩
  · intro bid
    simp [successCount, initState]
  · intro bid hb
    simp [successCount, initState] at hb
  · intro bid
    simp [eventCount, initState]
  · intro bid hb
    simp [eventCount, initState] at hb
  · intro bid blk hblk
    simp [initState, lookupB] at hblk

theorem Inv_foldl (ops : List Op) (s : State) (hs : Inv s) :
    Inv (ops.foldl step s) := by
  induction ops generalizing s with
  | nil => exact hs
  | cons op rest ih => exact ih (step s op) (Inv_step s op hs)

theorem Inv_run (ops : List Op) : Inv (run ops) :=
  Inv_foldl ops initState Inv_initState

theorem run_append (ops ops2 : List Op) :
    run (ops ++ ops2) = ops2.foldl step (run ops) := by
  simp [run, List.foldl_append]

/-! ## Further characterizations used by the claims -/

theorem hGet_hSet_none (l : List (Option Nat)) (i : Nat) :
    hGet (hSet l i none) i = none := by
  rw [hGet_hSet_self]
  split
  · rfl
  · rfl

theorem hGet_append_self (l : List (Option Nat)) (x : Option Nat) :
    hGet (l ++ [x]) l.length = x := by
  rw [hGet_append]
  simp

theorem releaseRef_decrement (bid : Nat) (s : State) (blk : Data)
    (hl : lookupB bid s.blocks = some blk) (hrc : 2 ≤ blk.refCount) :
    releaseRef bid s =
      { s with blocks := updateB bid { blk with refCount := blk.refCount - 1 } s.blocks } := by
  simp only [releaseRef, hl]
  rw [if_neg (by omega)]

theorem releaseRef_destroy (bid : Nat) (s : State) (blk : Data)
    (hl : lookupB bid s.blocks = some blk) (hrc : blk.refCount ≤ 1) :
    releaseRef bid s =
      if blk.upgraded then
        { s with blocks := removeB bid s.blocks, resolved := (bid, blk.t) :: s.resolved }
      else
        { s with blocks := removeB bid s.blocks, freed := (bid, blk.t) :: s.freed } := by
  simp only [releaseRef, hl]
  rw [if_pos hrc]

theorem resetH_handles_self (h : Nat) (s : State) :
    hGet (resetH h s).handles h = none := by
  unfold resetH
  rcases hg : hGet s.handles h with _ | bid
  · exact hg
  · rw [releaseRef_handles]
    exact hGet_hSet_none s.handles h

theorem resetH_handles_length (h : Nat) (s : State) :
    (resetH h s).handles.length = s.handles.length := by
  unfold resetH
  rcases hg : hGet s.handles h with _ | bid
  · rfl
  · rw [releaseRef_handles]
    exact length_hSet s.handles h none

theorem resetH_some (h bid : Nat) (s : State) (hg : hGet s.handles h = some bid) :
    resetH h s = releaseRef bid { s with handles := hSet s.handles h none } := by
  simp [resetH, hg]

/-! ## The claims -/

/-- **C4.** On a non-empty handle whose control block's claim flag is still
`false`, `upgrade()` wins the compare-and-swap: it returns the future side
of that block's promise (`pending bid`), and it unconditionally releases the
calling handle's own reference inside the same call — the slot is empty
afterwards, and the block's use count has dropped by one (when other
references remain, the block survives with the flag set; when the caller
held the last reference, the block is destroyed inside the call). -/
theorem upgrade_success_sets_flag_and_resets_handle (s : State) (h bid : Nat) (blk : Data)
    (hg : hGet s.handles h = some bid)
    (hl : lookupB bid s.blocks = some blk)
    (hu : blk.upgraded = false) :
    (upgradeH h s).2 = UpgradeResult.pending bid ∧
    hGet (upgradeH h s).1.handles h = none ∧
    (2 ≤ blk.refCount →
      lookupB bid (upgradeH h s).1.blocks
        = some ⟨blk.t, true, blk.refCount - 1⟩) ∧
    (blk.refCount ≤ 1 → lookupB bid (upgradeH h s).1.blocks = none) := by
  have he := upgradeH_of_unclaimed h bid blk s hg hl hu
  rw [he]
  have hl2 : lookupB bid (updateB bid { blk with upgraded := true } s.blocks)
      = some { blk with upgraded := true } :=
    lookupB_updateB_self bid _ blk s.blocks hl
  refine ⟨rfl, ?_, ?_, ?_⟩
  · rw [releaseRef_handles]
    exact hGet_hSet_none s.handles h
  · intro hrc
    rw [releaseRef_decrement bid _ { blk with upgraded := true } hl2 hrc]
    exact lookupB_updateB_self bid _ { blk with upgraded := true } _ hl2
  · intro hrc
    rw [releaseRef_destroy bid _ { blk with upgraded := true } hl2 hrc]
    rw [if_pos rfl]
    exact lookupB_removeB_self bid _

/-- Witness for `upgrade_success_sets_flag_and_resets_handle`: handle 0 of
two copies of a block holding 7 wins the upgrade; afterwards slot 0 is
empty and the block survives with use count 1 and the flag set. -/
theorem upgrade_success_sets_flag_and_resets_handle_witness :
    hGet (run [Op.create (some 7), Op.copy 0]).handles 0 = some 0 ∧
    lookupB 0 (run [Op.create (some 7), Op.copy 0]).blocks = some ⟨7, false, 2⟩ ∧
    (upgradeH 0 (run [Op.create (some 7), Op.copy 0])).2 = UpgradeResult.pending 0 ∧
    hGet (upgradeH 0 (run [Op.create (some 7), Op.copy 0])).1.handles 0 = none ∧
    lookupB 0 (upgradeH 0 (run [Op.create (some 7), Op.copy 0])).1.blocks
      = some ⟨7, true, 1⟩ := by
  have hmain := upgrade_success_sets_flag_and_resets_handle
    (run [Op.create (some 7), Op.copy 0]) 0 0 ⟨7, false, 2⟩
    (by decide) (by decide) (by decide)
  exact ⟨by decide, by decide, hmain.1, hmain.2.1, hmain.2.2.1 (by decide)⟩

/-- **C5.** On a non-empty handle whose control block's claim flag is
already `true`, `upgrade()` returns an immediately-failed future carrying
the promotion-conflict error, and the whole state — in particular the
calling handle's reference and the control block — is unchanged: the handle
still references the same block with the same value. -/
theorem upgrade_conflict_fails_and_preserves_handle (s : State) (h bid : Nat) (blk : Data)
    (hg : hGet s.handles h = some bid)
    (hl : lookupB bid s.blocks = some blk)
    (hu : blk.upgraded = true) :
    upgradeH h s = (s, UpgradeResult.failed "An upgrade is already being performed") ∧
    hGet (upgradeH h s).1.handles h = some bid ∧
    lookupB bid (upgradeH h s).1.blocks = some blk ∧
    getH h (upgradeH h s).1 = some blk.t := by
  have he := upgradeH_of_claimed h bid blk s hg hl hu
  rw [he]
  exact ⟨rfl, hg, hl, by simp [getH, hg, hl]⟩

/-- Witness for `upgrade_conflict_fails_and_preserves_handle`: Scenario 2 —
after handle 0 wins the upgrade, the other copy's `upgrade()` fails and
that copy still dereferences to the value. -/
theorem upgrade_conflict_fails_and_preserves_handle_witness :
    hGet (run [Op.create (some 9), Op.copy 0, Op.upgrade 0]).handles 1 = some 0 ∧
    lookupB 0 (run [Op.create (some 9), Op.copy 0, Op.upgrade 0]).blocks
      = some ⟨9, true, 1⟩ ∧
    upgradeH 1 (run [Op.create (some 9), Op.copy 0, Op.upgrade 0])
      = (run [Op.create (some 9), Op.copy 0, Op.upgrade 0],
         UpgradeResult.failed "An upgrade is already being performed") := by
  refine ⟨by decide, by decide, ?_⟩
  exact (upgrade_conflict_fails_and_preserves_handle
    (run [Op.create (some 9), Op.copy 0, Op.upgrade 0]) 1 0 ⟨9, true, 1⟩
    (by decide) (by decide) (by decide)).1

/-- **C6.** `upgrade()` on an empty Shared Handle returns an
already-resolved future holding an empty Exclusive Handle (`Owned<T>(NULL)`)
and leaves the state untouched: in particular no control block is allocated
by the call. -/
theorem upgrade_on_empty_handle (s : State) (h : Nat)
    (hg : hGet s.handles h = none) :
    upgradeH h s = (s, UpgradeResult.readyEmpty) ∧
    (upgradeH h s).1.blocks = s.blocks ∧
    (upgradeH h s).1.nextBlock = s.nextBlock := by
  have he := upgradeH_of_empty h s hg
  rw [he]
  exact ⟨rfl, rfl, rfl⟩

/-- Witness for `upgrade_on_empty_handle`: Scenario 3 — a handle
constructed from a null value. -/
theorem upgrade_on_empty_handle_witness :
    hGet (run [Op.create none]).handles 0 = none ∧
    upgradeH 0 (run [Op.create none]) = (run [Op.create none], UpgradeResult.readyEmpty) := by
  refine ⟨by decide, ?_⟩
  exact (upgrade_on_empty_handle (run [Op.create none]) 0 (by decide)).1

/-- **C10.** After a successful `upgrade()` on a handle, a second
`upgrade()` on the same handle instance behaves exactly as `upgrade()` on
an empty handle — it returns the already-resolved future holding an empty
Exclusive Handle, not a promotion-conflict failure — because the winning
call reset the handle. -/
theorem second_upgrade_on_same_handle_is_empty (s : State) (h bid : Nat) (blk : Data)
    (hg : hGet s.handles h = some bid)
    (hl : lookupB bid s.blocks = some blk)
    (hu : blk.upgraded = false) :
    upgradeH h (upgradeH h s).1 = ((upgradeH h s).1, UpgradeResult.readyEmpty) := by
  apply upgradeH_of_empty
  rw [upgradeH_of_unclaimed h bid blk s hg hl hu]
  rw [releaseRef_handles]
  exact hGet_hSet_none s.handles h

/-- Witness for `second_upgrade_on_same_handle_is_empty`: after handle 0
wins, its own second `upgrade()` is the empty-handle path. -/
theorem second_upgrade_on_same_handle_is_empty_witness :
    hGet (run [Op.create (some 9), Op.copy 0]).handles 0 = some 0 ∧
    lookupB 0 (run [Op.create (some 9), Op.copy 0]).blocks = some ⟨9, false, 2⟩ ∧
    upgradeH 0 (upgradeH 0 (run [Op.create (some 9), Op.copy 0])).1
      = ((upgradeH 0 (run [Op.create (some 9), Op.copy 0])).1,
         UpgradeResult.readyEmpty) := by
  refine ⟨by decide, by decide, ?_⟩
  exact second_upgrade_on_same_handle_is_empty
    (run [Op.create (some 9), Op.copy 0]) 0 0 ⟨9, false, 2⟩
    (by decide) (by decide) (by decide)

/-- **C7.** `get()` returns a (const) pointer to the wrapped value on every
non-empty handle and `NULL` on every empty handle, while the direct-access
operators `*` and `->` (`CHECK_NOTNULL(get())`) abort fatally on an empty
handle — they never return null or garbage. -/
theorem get_null_and_fatal_deref (s : State) (h bid : Nat) (blk : Data) :
    (hGet s.handles h = none →
      getH h s = none ∧ derefStar h s = Access.fatal ∧ derefArrow h s = Access.fatal) ∧
    (hGet s.handles h = some bid → lookupB bid s.blocks = some blk →
      getH h s = some blk.t ∧ derefStar h s = Access.ok blk.t ∧
      derefArrow h s = Access.ok blk.t) := by
  constructor
  · intro hg
    simp [getH, derefStar, derefArrow, hg]
  · intro hg hl
    simp [getH, derefStar, derefArrow, hg, hl]

/-- Witness for `get_null_and_fatal_deref`: handle 1 is empty (fatal
dereference), handle 0 wraps 3. -/
theorem get_null_and_fatal_deref_witness :
    (getH 1 (run [Op.create (some 3), Op.create none]) = none ∧
      derefStar 1 (run [Op.create (some 3), Op.create none]) = Access.fatal ∧
      derefArrow 1 (run [Op.create (some 3), Op.create none]) = Access.fatal) ∧
    (getH 0 (run [Op.create (some 3), Op.create none]) = some 3 ∧
      derefStar 0 (run [Op.create (some 3), Op.create none]) = Access.ok 3 ∧
      derefArrow 0 (run [Op.create (some 3), Op.create none]) = Access.ok 3) := by
  constructor
  · exact (get_null_and_fatal_deref (run [Op.create (some 3), Op.create none])
      1 0 ⟨3, false, 1⟩).1 (by decide)
  · exact (get_null_and_fatal_deref (run [Op.create (some 3), Op.create none])
      0 0 ⟨3, false, 1⟩).2 (by decide) (by decide)

/-- **C8.** Equality of Shared Handles is identity of the referenced
control block (`data == that.data`): two handles compare equal exactly when
their stored block references coincide (both empty handles hold the null
reference and compare equal); hence a handle and a fresh copy of it compare
equal, and two handles constructed independently from (equal) values
reference distinct freshly allocated blocks and compare unequal. -/
theorem equality_is_control_block_identity (s : State) (h1 h2 : Nat) (v w : Nat) :
    (eqH h1 h2 s = true ↔ hGet s.handles h1 = hGet s.handles h2) ∧
    eqH h1 s.handles.length (copyH h1 s) = true ∧
    eqH s.handles.length (s.handles.length + 1)
      (createH (some w) (createH (some v) s)) = false := by
  refine ⟨by simp [eqH], ?_, ?_⟩
  · unfold copyH
    rcases hg : hGet s.handles h1 with _ | bid
    · have e1 : hGet (s.handles ++ [none]) h1 = none := by
        rw [hGet_append]
        split
        · exact hg
        · split
          · rfl
          · rfl
      have e2 : hGet (s.handles ++ [(none : Option Nat)]) s.handles.length = none :=
        hGet_append_self _ _
      simp [eqH, e1, e2]
    · have hlt := hGet_lt_length s.handles h1 bid hg
      have e1 : hGet (s.handles ++ [some bid]) h1 = some bid := by
        rw [hGet_append, if_pos hlt]
        exact hg
      have e2 : hGet (s.handles ++ [some bid]) s.handles.length = some bid :=
        hGet_append_self _ _
      simp [eqH, e1, e2]
  · have e1 : hGet ((s.handles ++ [some s.nextBlock]) ++ [some (s.nextBlock + 1)])
        s.handles.length = some s.nextBlock := by
      rw [hGet_append, if_pos (by simp)]
      exact hGet_append_self _ _
    have e2 : hGet ((s.handles ++ [some s.nextBlock]) ++ [some (s.nextBlock + 1)])
        (s.handles.length + 1) = some (s.nextBlock + 1) := by
      have hlen : (s.handles ++ [some s.nextBlock]).length = s.handles.length + 1 := by
        simp
      rw [← hlen]
      exact hGet_append_self _ _
    rw [show eqH s.handles.length (s.handles.length + 1)
          (createH (some w) (createH (some v) s))
        = decide (hGet ((s.handles ++ [some s.nextBlock]) ++ [some (s.nextBlock + 1)])
              s.handles.length
            = hGet ((s.handles ++ [some s.nextBlock]) ++ [some (s.nextBlock + 1)])
              (s.handles.length + 1)) from rfl]
    rw [e1, e2]
    simp

/-- **C9.** Constructing a Shared Handle from a null value yields an empty
handle with no control block allocated; constructing from a non-null value
allocates a fresh control block owning that value (claim flag `false`, use
count 1).  Likewise `reset(NULL)` is `reset()` and leaves the handle empty,
while `reset(t)` with non-null `t` installs a fresh control block owning
`t`. -/
theorem construct_and_reset_allocation (s : State) (h t : Nat)
    (hlen : h < s.handles.length) :
    (createH none s).blocks = s.blocks ∧
    (createH none s).nextBlock = s.nextBlock ∧
    hGet (createH none s).handles s.handles.length = none ∧
    hGet (createH (some t) s).handles s.handles.length = some s.nextBlock ∧
    lookupB s.nextBlock (createH (some t) s).blocks = some ⟨t, false, 1⟩ ∧
    resetWithH h none s = resetH h s ∧
    hGet (resetH h s).handles h = none ∧
    hGet (resetWithH h (some t) s).handles h = some (resetH h s).nextBlock ∧
    lookupB (resetH h s).nextBlock (resetWithH h (some t) s).blocks
      = some ⟨t, false, 1⟩ := by
  refine ⟨rfl, rfl, hGet_append_self _ _, hGet_append_self _ _, ?_, rfl,
    resetH_handles_self h s, ?_, ?_⟩
  · rw [show lookupB s.nextBlock (createH (some t) s).blocks
        = if s.nextBlock = s.nextBlock then some (⟨t, false, 1⟩ : Data)
          else lookupB s.nextBlock s.blocks from rfl]
    rw [if_pos rfl]
  · show hGet (hSet (resetH h s).handles h (some (resetH h s).nextBlock)) h = _
    rw [hGet_hSet_self, if_pos]
    rw [resetH_handles_length]
    exact hlen
  · show lookupB (resetH h s).nextBlock
      (((resetH h s).nextBlock, (⟨t, false, 1⟩ : Data)) :: (resetH h s).blocks)
      = some ⟨t, false, 1⟩
    rw [lookupB_cons, if_pos rfl]

/-- Witness for `construct_and_reset_allocation` at a state with one live
handle (slot 0 wraps 4), constructing and resetting with value 6. -/
theorem construct_and_reset_allocation_witness :
    0 < (run [Op.create (some 4)]).handles.length ∧
    hGet (createH (some 6) (run [Op.create (some 4)])).handles 1 = some 1 ∧
    lookupB 1 (createH (some 6) (run [Op.create (some 4)])).blocks
      = some ⟨6, false, 1⟩ ∧
    hGet (resetH 0 (run [Op.create (some 4)])).handles 0 = none ∧
    lookupB 1 (resetWithH 0 (some 6) (run [Op.create (some 4)])).blocks
      = some ⟨6, false, 1⟩ := by
  have hmain := construct_and_reset_allocation (run [Op.create (some 4)]) 0 6 (by decide)
  exact ⟨by decide, hmain.2.2.2.1, hmain.2.2.2.2.1, hmain.2.2.2.2.2.2.1,
    hmain.2.2.2.2.2.2.2.2⟩

/-- **C1.** Across all handle copies referencing a control block and any
sequence of operations (any client program), at most one `upgrade()` call
ever takes the success path — at most one `pending` future for the block is
ever handed out; and once one success is on record, every later `upgrade()`
on a handle still referencing that block returns the failed future, never a
second success. -/
theorem upgrade_wins_at_most_once (ops : List Op) (bid : Nat) :
    successCount bid (run ops).log ≤ 1 ∧
    (∀ h blk, 1 ≤ successCount bid (run ops).log →
      hGet (run ops).handles h = some bid →
      lookupB bid (run ops).blocks = some blk →
      (upgradeH h (run ops)).2
        = UpgradeResult.failed "An upgrade is already being performed") := by
  obtain ⟨I1, I2, I3, I4, I5⟩ := Inv_run ops
  refine ⟨I1 bid, ?_⟩
  intro h blk hsc hg hl
  have hu : blk.upgraded = true := (I2 bid hsc).2 blk hl
  rw [upgradeH_of_claimed h bid blk (run ops) hg hl hu]

/-- Witness for `upgrade_wins_at_most_once`: handle 0 of two copies has
won; the later `upgrade()` through the surviving copy (slot 1) fails. -/
theorem upgrade_wins_at_most_once_witness :
    1 ≤ successCount 0 (run [Op.create (some 5), Op.copy 0, Op.upgrade 0]).log ∧
    hGet (run [Op.create (some 5), Op.copy 0, Op.upgrade 0]).handles 1 = some 0 ∧
    (upgradeH 1 (run [Op.create (some 5), Op.copy 0, Op.upgrade 0])).2
      = UpgradeResult.failed "An upgrade is already being performed" := by
  refine ⟨by decide, by decide, ?_⟩
  exact (upgrade_wins_at_most_once [Op.create (some 5), Op.copy 0, Op.upgrade 0] 0).2
    1 ⟨5, true, 1⟩ (by decide) (by decide) (by decide)

/-- **C2.** When a control block's use count reaches zero (here: a `reset`
of the last handle referencing it in a reachable state), its destructor
runs and resolves ownership of the raw value by a two-way decision: claim
flag `false` — the value is deallocated (`delete t` logged), no promise
fulfillment; claim flag `true` — the promise is fulfilled with the value
(`promise.set` logged), no deallocation.  Exactly one release event is ever
recorded for the block, across the destruction and any continuation of the
program, and the block itself is gone. -/
theorem data_dtor_resolves_ownership_once (ops ops2 : List Op) (h bid : Nat) (blk : Data)
    (hg : hGet (run ops).handles h = some bid)
    (hl : lookupB bid (run ops).blocks = some blk)
    (hrc : blk.refCount = 1) :
    (blk.upgraded = false →
      (bid, blk.t) ∈ (resetH h (run ops)).freed ∧
      eventCount bid (resetH h (run ops)).resolved = 0) ∧
    (blk.upgraded = true →
      (bid, blk.t) ∈ (resetH h (run ops)).resolved ∧
      eventCount bid (resetH h (run ops)).freed = 0) ∧
    eventCount bid (resetH h (run ops)).freed
      + eventCount bid (resetH h (run ops)).resolved = 1 ∧
    lookupB bid (resetH h (run ops)).blocks = none ∧
    eventCount bid (run (ops ++ Op.reset h :: ops2)).freed
      + eventCount bid (run (ops ++ Op.reset h :: ops2)).resolved ≤ 1 := by
  obtain ⟨I1, I2, I3, I4, I5⟩ := Inv_run ops
  have h0 : eventCount bid (run ops).freed + eventCount bid (run ops).resolved = 0 := by
    by_contra hne
    obtain ⟨_, hdead⟩ := I4 bid (by omega)
    rw [hl] at hdead
    exact Option.noConfusion hdead
  have hr : resetH h (run ops)
      = releaseRef bid { run ops with handles := hSet (run ops).handles h none } :=
    resetH_some h bid (run ops) hg
  rw [releaseRef_destroy bid
    { run ops with handles := hSet (run ops).handles h none } blk hl (by omega)] at hr
  have hrun2 : run (ops ++ Op.reset h :: ops2)
      = ops2.foldl step (resetH h (run ops)) := by
    rw [run_append]
    rfl
  have hInv2 : Inv (resetH h (run ops)) := Inv_resetH h (run ops) ⟨I1, I2, I3, I4, I5⟩
  obtain ⟨_, _, J3, _, _⟩ := Inv_foldl ops2 _ hInv2
  by_cases hu : blk.upgraded = true
  · rw [if_pos hu] at hr
    refine ⟨?_, ?_, ?_, ?_, ?_⟩
    · intro hfalse
      rw [hu] at hfalse
      exact Bool.noConfusion hfalse
    · intro _
      rw [hr]
      dsimp only
      refine ⟨List.mem_cons_self _ _, ?_⟩
      omega
    · rw [hr]
      dsimp only
      rw [eventCount_cons]
      simp
      omega
    · rw [hr]
      exact lookupB_removeB_self bid _
    · rw [hrun2]
      exact J3 bid
  · rw [if_neg hu] at hr
    refine ⟨?_, ?_, ?_, ?_, ?_⟩
    · intro _
      rw [hr]
      dsimp only
      refine ⟨List.mem_cons_self _ _, ?_⟩
      omega
    · intro htrue
      exact absurd htrue hu
    · rw [hr]
      dsimp only
      rw [eventCount_cons]
      simp
      omega
    · rw [hr]
      exact lookupB_removeB_self bid _
    · rw [hrun2]
      exact J3 bid

/-- Witness for `data_dtor_resolves_ownership_once`: the sole handle to a
never-upgraded block holding 7 is reset; the value is deleted exactly
once. -/
theorem data_dtor_resolves_ownership_once_witness :
    hGet (run [Op.create (some 7)]).handles 0 = some 0 ∧
    lookupB 0 (run [Op.create (some 7)]).blocks = some ⟨7, false, 1⟩ ∧
    ((0, 7) ∈ (resetH 0 (run [Op.create (some 7)])).freed ∧
      eventCount 0 (resetH 0 (run [Op.create (some 7)])).resolved = 0) ∧
    eventCount 0 (resetH 0 (run [Op.create (some 7)])).freed
      + eventCount 0 (resetH 0 (run [Op.create (some 7)])).resolved = 1 := by
  have hmain := data_dtor_resolves_ownership_once [Op.create (some 7)] [] 0 0
    ⟨7, false, 1⟩ (by decide) (by decide) (by decide)
  exact ⟨by decide, by decide, hmain.1 (by decide), hmain.2.2.1⟩

/-- **C3.** A successful promotion's future is resolved exactly when the
control block's use count reaches zero: in every reachable state the
promise of a still-live block has never been fulfilled (no premature
delivery while other copies remain); releasing one of `≥ 2` references of a
claimed block keeps it alive and unresolved; and releasing the last
reference fulfils the promise with the original value. -/
theorem upgrade_future_resolves_at_refcount_zero (ops : List Op) (h bid : Nat) (blk : Data)
    (hg : hGet (run ops).handles h = some bid)
    (hl : lookupB bid (run ops).blocks = some blk)
    (hu : blk.upgraded = true) :
    (∀ ops2 bid2 blk2, lookupB bid2 (run ops2).blocks = some blk2 →
      eventCount bid2 (run ops2).resolved = 0) ∧
    (2 ≤ blk.refCount →
      lookupB bid (resetH h (run ops)).blocks
        = some ⟨blk.t, true, blk.refCount - 1⟩ ∧
      eventCount bid (resetH h (run ops)).resolved = 0) ∧
    (blk.refCount = 1 →
      (bid, blk.t) ∈ (resetH h (run ops)).resolved ∧
      eventCount bid (resetH h (run ops)).resolved = 1) := by
  obtain ⟨I1, I2, I3, I4, I5⟩ := Inv_run ops
  have h0 : eventCount bid (run ops).freed + eventCount bid (run ops).resolved = 0 := by
    by_contra hne
    obtain ⟨_, hdead⟩ := I4 bid (by omega)
    rw [hl] at hdead
    exact Option.noConfusion hdead
  have hr : resetH h (run ops)
      = releaseRef bid { run ops with handles := hSet (run ops).handles h none } :=
    resetH_some h bid (run ops) hg
  refine ⟨?_, ?_, ?_⟩
  · intro ops2 bid2 blk2 hlb
    obtain ⟨_, _, _, I4', _⟩ := Inv_run ops2
    by_contra hne
    obtain ⟨_, hdead⟩ := I4' bid2 (by omega)
    rw [hlb] at hdead
    exact Option.noConfusion hdead
  · intro hrc
    rw [hr, releaseRef_decrement bid
      { run ops with handles := hSet (run ops).handles h none } blk hl hrc]
    dsimp only
    constructor
    · rw [lookupB_updateB_self bid { blk with refCount := blk.refCount - 1 } blk
        (run ops).blocks hl, hu]
    · omega
  · intro hrc
    rw [hr, releaseRef_destroy bid
      { run ops with handles := hSet (run ops).handles h none } blk hl (by omega),
      if_pos hu]
    dsimp only
    refine ⟨List.mem_cons_self _ _, ?_⟩
    rw [eventCount_cons]
    simp
    omega

/-- Witness for `upgrade_future_resolves_at_refcount_zero`: Scenario 1 —
handle 0 (of two copies of a block holding 42) wins the upgrade; releasing
the remaining copy (slot 1) fulfils the promise with 42, exactly once. -/
theorem upgrade_future_resolves_at_refcount_zero_witness :
    hGet (run [Op.create (some 42), Op.copy 0, Op.upgrade 0]).handles 1 = some 0 ∧
    lookupB 0 (run [Op.create (some 42), Op.copy 0, Op.upgrade 0]).blocks
      = some ⟨42, true, 1⟩ ∧
    (0, 42) ∈ (resetH 1 (run [Op.create (some 42), Op.copy 0, Op.upgrade 0])).resolved ∧
    eventCount 0 (resetH 1 (run [Op.create (some 42), Op.copy 0, Op.upgrade 0])).resolved
      = 1 := by
  have hmain := upgrade_future_resolves_at_refcount_zero
    [Op.create (some 42), Op.copy 0, Op.upgrade 0] 1 0 ⟨42, true, 1⟩
    (by decide) (by decide) (by decide)
  exact ⟨by decide, by decide, (hmain.2.2 (by decide)).1, (hmain.2.2 (by decide)).2⟩

end ProcessShared
